import Mathlib

/-!
Shallow embedding of `TProfile2Poly` / `TProfile2PolyBin`
(src/hist/hist/src/TProfile2Poly.cxx) — a polygon-binned 2D profile
aggregator.  C++ `Double_t` values are modelled as `ℚ` (exact field
arithmetic; floating rounding is abstracted away).  The floating-point
square root is modelled as an abstract function `sq : ℚ → ℚ`, passed as a
parameter to every operation that computes an error.  Division by zero in
`ℚ` yields 0.

The polygon containment test `TH2PolyBin::IsInside` and the TH2Poly cell
index (`fCells`) are not part of the excerpt; the spec declares them an
external collaborator capability `lookupRegions(x, y)`.  Each bin therefore
carries an abstract membership test `isInside : ℚ → ℚ → Bool`, and
`TProfile2Poly.Fill` iterates over the bins whose test holds, which is
exactly what the cell-indexed loop of the C++ computes for a registered
partition.
-/

namespace TProfile2PolyModel

/-- Modelled from the spec: the error-mode enum `EErrorType` is declared in
a header that is not part of the excerpt.  The spec names SPREAD
(`kERRORSPREAD`) and MEAN_ERROR (`kERRORMEAN`) and requires a fail-safe
default for unrecognized modes, so the two further ROOT modes are kept as
extra constructors reachable only through them. -/
inductive EErrorType where
  | kERRORMEAN
  | kERRORSPREAD
  | kERRORSPREADI
  | kERRORSPREADG
deriving DecidableEq, Repr

export EErrorType (kERRORMEAN kERRORSPREAD kERRORSPREADI kERRORSPREADG)

/-- One `TProfile2PolyBin`: the four moment sums, the derived error and
average, the error mode, plus the pieces of the `TH2PolyBin` base the
excerpt touches: the display content (`SetContent`), the changed flag
(`SetChanged`) and the abstract polygon-membership test (`IsInside`). -/
structure TProfile2PolyBin where
  fSumw : ℚ
  fSumvw : ℚ
  fSumw2 : ℚ
  fSumwv2 : ℚ
  fError : ℚ
  fAverage : ℚ
  fErrorMode : EErrorType
  fContent : ℚ
  fChanged : Bool
  isInside : ℚ → ℚ → Bool

namespace TProfile2PolyBin

/-- The freshly constructed bin (constructor at lines 17–37): all sums,
error and average zero, error mode `kERRORSPREAD`. -/
def mk0 (inside : ℚ → ℚ → Bool) : TProfile2PolyBin :=
  { fSumw := 0, fSumvw := 0, fSumw2 := 0, fSumwv2 := 0
    fError := 0, fAverage := 0, fErrorMode := kERRORSPREAD
    fContent := 0, fChanged := false, isInside := inside }

instance : Inhabited TProfile2PolyBin := ⟨mk0 fun _ _ => false⟩

/-- `TProfile2PolyBin::Merge` (lines 39–45): adds the four moment sums of
`toMerge` into `this`. -/
def Merge (b toMerge : TProfile2PolyBin) : TProfile2PolyBin :=
  { b with
    fSumw := b.fSumw + toMerge.fSumw
    fSumvw := b.fSumvw + toMerge.fSumvw
    fSumw2 := b.fSumw2 + toMerge.fSumw2
    fSumwv2 := b.fSumwv2 + toMerge.fSumwv2 }

/-- Modelled from the spec: `GetEffectiveEntries` is an inline accessor of
the header, `effectiveEntries = sumWeight² / sumWeightSquared` (0 if
`sumWeightSquared == 0`). -/
def GetEffectiveEntries (b : TProfile2PolyBin) : ℚ :=
  if b.fSumw2 = 0 then 0 else b.fSumw * b.fSumw / b.fSumw2

/-- `TProfile2PolyBin::UpdateAverage` (lines 54–57). -/
def UpdateAverage (b : TProfile2PolyBin) : TProfile2PolyBin :=
  if b.fSumw ≠ 0 then { b with fAverage := b.fSumvw / b.fSumw } else b

/-- `TProfile2PolyBin::UpdateError` (lines 59–73), with `sq` the abstract
square root. -/
def UpdateError (sq : ℚ → ℚ) (b : TProfile2PolyBin) : TProfile2PolyBin :=
  let tmp : ℚ :=
    if b.fSumw ≠ 0 then sq (b.fSumwv2 / b.fSumw - b.fAverage * b.fAverage) else 0
  match b.fErrorMode with
  | kERRORMEAN => { b with fError := tmp / sq b.GetEffectiveEntries }
  | kERRORSPREAD => { b with fError := tmp }
  | _ => { b with fError := tmp / sq b.GetEffectiveEntries }

/-- `TH2PolyBin::SetChanged`, from the base class. -/
def SetChanged (b : TProfile2PolyBin) (flag : Bool) : TProfile2PolyBin :=
  { b with fChanged := flag }

/-- `TH2PolyBin::SetContent`, from the base class: sets the display value. -/
def SetContent (b : TProfile2PolyBin) (c : ℚ) : TProfile2PolyBin :=
  { b with fContent := c }

/-- `TProfile2PolyBin::Update` (lines 47–52): recompute the average, then
the error, then mark the bin changed. -/
def Update (sq : ℚ → ℚ) (b : TProfile2PolyBin) : TProfile2PolyBin :=
  ((b.UpdateAverage).UpdateError sq).SetChanged true

/-- `TProfile2PolyBin::ClearStats` (lines 75–83). -/
def ClearStats (b : TProfile2PolyBin) : TProfile2PolyBin :=
  { b with fSumw := 0, fSumvw := 0, fSumw2 := 0, fSumwv2 := 0
           fError := 0, fAverage := 0 }

/-- `TProfile2PolyBin::Fill` (lines 85–92): add the sample to the four
moment sums, then call `this->Update()`. -/
def Fill (sq : ℚ → ℚ) (b : TProfile2PolyBin) (value weight : ℚ) : TProfile2PolyBin :=
  Update sq
    { b with
      fSumw := b.fSumw + weight
      fSumvw := b.fSumvw + value * weight
      fSumw2 := b.fSumw2 + weight * weight
      fSumwv2 := b.fSumwv2 + weight * value * value }

/-- Modelled from the spec: inline accessor of the header returning the
bin's (weighted) entry count Σw. -/
def GetEntries (b : TProfile2PolyBin) : ℚ := b.fSumw

/-- Modelled from the spec: inline accessor of the header returning Σw². -/
def GetEntriesW2 (b : TProfile2PolyBin) : ℚ := b.fSumw2

/-- Modelled from the spec: inline accessor of the header returning Σwv. -/
def GetEntriesVW (b : TProfile2PolyBin) : ℚ := b.fSumvw

/-- Modelled from the spec: inline accessor of the header returning Σwv². -/
def GetEntriesWV2 (b : TProfile2PolyBin) : ℚ := b.fSumwv2

/-- Modelled from the spec: inline accessor of the header returning the
stored error. -/
def GetError (b : TProfile2PolyBin) : ℚ := b.fError

/-- The average `Update` computes: `Σwv / Σw` when `Σw ≠ 0`, otherwise the
previously stored average (the freeze-at-last-value policy). -/
def averageAfter (b : TProfile2PolyBin) : ℚ :=
  if b.fSumw = 0 then b.fAverage else b.fSumvw / b.fSumw

/-- The error `Update` computes: `tmp = sq (Σwv²/Σw − average²)` for the
freshly recomputed average when `Σw ≠ 0` (0 otherwise), returned as-is in
SPREAD mode and divided by `sq effectiveEntries` in every other mode. -/
def errorAfter (sq : ℚ → ℚ) (b : TProfile2PolyBin) : ℚ :=
  let tmp : ℚ :=
    if b.fSumw = 0 then 0
    else sq (b.fSumwv2 / b.fSumw - b.averageAfter * b.averageAfter)
  match b.fErrorMode with
  | kERRORSPREAD => tmp
  | _ => tmp / sq b.GetEffectiveEntries

end TProfile2PolyBin

/-- `kNOverflow = 9`: the fixed number of overflow regions. -/
def kNOverflow : Int := 9

/-- The `TProfile2Poly` aggregator state.  `fBins` is the ordered list of
interior bins, `fOverflowBins` the 9 overflow accumulators, `fOverflow`
the base `TH2Poly` overflow-content array (a `Double_t[9]` that this
class's `Fill` never writes), the `fTsum…` fields the 9 global moment
sums, `fEntries` the interior entry count, and the four axis fields the
domain bounds (`fXaxis.GetXmin()` etc.). -/
structure TProfile2Poly where
  fBins : List TProfile2PolyBin
  fOverflowBins : List TProfile2PolyBin
  fOverflow : List ℚ
  fXmin : ℚ
  fXmax : ℚ
  fYmin : ℚ
  fYmax : ℚ
  fEntries : ℚ
  fTsumw : ℚ
  fTsumw2 : ℚ
  fTsumwx : ℚ
  fTsumwx2 : ℚ
  fTsumwy : ℚ
  fTsumwy2 : ℚ
  fTsumwxy : ℚ
  fTsumwz : ℚ
  fTsumwz2 : ℚ
  fErrorMode : EErrorType

namespace TProfile2Poly

/-- A freshly constructed aggregator over the domain
`[xmin,xmax] × [ymin,ymax]` with the listed registered interior regions
(each given by its abstract membership test): all statistics zero, the
9 overflow accumulators freshly constructed. -/
def mk0 (xmin xmax ymin ymax : ℚ) (regions : List (ℚ → ℚ → Bool)) : TProfile2Poly :=
  { fBins := regions.map TProfile2PolyBin.mk0
    fOverflowBins := List.replicate 9 (TProfile2PolyBin.mk0 fun _ _ => false)
    fOverflow := List.replicate 9 0
    fXmin := xmin, fXmax := xmax, fYmin := ymin, fYmax := ymax
    fEntries := 0
    fTsumw := 0, fTsumw2 := 0, fTsumwx := 0, fTsumwx2 := 0
    fTsumwy := 0, fTsumwy2 := 0, fTsumwxy := 0, fTsumwz := 0, fTsumwz2 := 0
    fErrorMode := kERRORSPREAD }

instance : Inhabited TProfile2Poly := ⟨mk0 0 0 0 0 []⟩

/-- `TH2Poly::GetNumberOfBins` (base class, not in the excerpt): the number
of registered interior bins, `fNcells - kNOverflow`. -/
def GetNumberOfBins (t : TProfile2Poly) : Int := t.fBins.length

/-- `TProfile2Poly::GetOverflowRegionFromCoordinates` (lines 363–395).
`fNcells ≤ kNOverflow` — i.e. no interior bin registered — returns 0;
otherwise the region id is a y-row offset (−1 / −4 / −7) plus an x-column
offset (−2 / −1 / 0), giving an id in −1 … −9 with −5 the centre. -/
def GetOverflowRegionFromCoordinates (t : TProfile2Poly) (x y : ℚ) : Int :=
  if t.fBins.length = 0 then 0
  else
    (if y > t.fYmax then -1 else if y > t.fYmin then -4 else -7)
      + (if x > t.fXmax then -2 else if x > t.fXmin then -1 else 0)

/-- `TProfile2Poly::OverflowIdxToArrayIdx` (inline in the header): maps a
region id `-1 … -9` to the array index `0 … 8`. -/
def OverflowIdxToArrayIdx (val : Int) : Int := -val - 1

/-- `TProfile2Poly::Fill(x, y, value, weight)` (lines 127–170): fill the
overflow accumulator of the region the sample classifies to, update the 9
global moment sums, and for every interior bin containing the point
increment `fEntries`, fill the bin, update it and set its content to its
average.  Returns the region id together with the new state. -/
def Fill (sq : ℚ → ℚ) (t : TProfile2Poly) (xcoord ycoord value weight : ℚ) :
    Int × TProfile2Poly :=
  let tmp := t.GetOverflowRegionFromCoordinates xcoord ycoord
  let oidx := (OverflowIdxToArrayIdx tmp).toNat
  let newOverflow :=
    t.fOverflowBins.set oidx ((t.fOverflowBins.getD oidx default).Fill sq value weight)
  let newBins :=
    t.fBins.map fun b =>
      if b.isInside xcoord ycoord then
        let b1 := b.Fill sq value weight
        let b2 := b1.Update sq
        b2.SetContent b2.fAverage
      else b
  let newEntries :=
    t.fEntries + ((t.fBins.filter fun b => b.isInside xcoord ycoord).length : ℚ)
  (tmp,
    { t with
      fOverflowBins := newOverflow
      fBins := newBins
      fEntries := newEntries
      fTsumw := t.fTsumw + weight
      fTsumw2 := t.fTsumw2 + weight * weight
      fTsumwx := t.fTsumwx + weight * xcoord
      fTsumwx2 := t.fTsumwx2 + weight * xcoord * xcoord
      fTsumwy := t.fTsumwy + weight * ycoord
      fTsumwy2 := t.fTsumwy2 + weight * ycoord * ycoord
      fTsumwxy := t.fTsumwxy + weight * xcoord * ycoord
      fTsumwz := t.fTsumwz + weight * value
      fTsumwz2 := t.fTsumwz2 + weight * value * value })

/-- The per-bin pass of `SetContentToAverage` (lines 244–246): update the
bin, then set its content to its freshly recomputed average. -/
def updateAndSetAverage (sq : ℚ → ℚ) (b : TProfile2PolyBin) : TProfile2PolyBin :=
  (b.Update sq).SetContent (b.Update sq).fAverage

/-- `TProfile2Poly::SetContentToAverage` (lines 240–248): update every
interior bin and set its content to its average. -/
def SetContentToAverage (sq : ℚ → ℚ) (t : TProfile2Poly) : TProfile2Poly :=
  { t with
    fBins := t.fBins.map fun b =>
      let b1 := b.Update sq
      b1.SetContent b1.fAverage }

/-- One step of the global-statistics loop of `Merge` (lines 204–220):
add `histo`'s entries and 9 global sums into the accumulator and merge the
9 overflow accumulators pairwise. -/
def mergeGlobals (acc histo : TProfile2Poly) : TProfile2Poly :=
  { acc with
    fEntries := acc.fEntries + histo.fEntries
    fTsumw := acc.fTsumw + histo.fTsumw
    fTsumw2 := acc.fTsumw2 + histo.fTsumw2
    fTsumwx := acc.fTsumwx + histo.fTsumwx
    fTsumwx2 := acc.fTsumwx2 + histo.fTsumwx2
    fTsumwy := acc.fTsumwy + histo.fTsumwy
    fTsumwy2 := acc.fTsumwy2 + histo.fTsumwy2
    fTsumwxy := acc.fTsumwxy + histo.fTsumwxy
    fTsumwz := acc.fTsumwz + histo.fTsumwz
    fTsumwz2 := acc.fTsumwz2 + histo.fTsumwz2
    fOverflowBins := acc.fOverflowBins.zipWith TProfile2PolyBin.Merge histo.fOverflowBins }

/-- `TProfile2Poly::Merge(const std::vector<TProfile2Poly*>&)`
(lines 185–238).  An empty list, or source bin counts that are not all
equal (the `std::set` of sizes has more than one element), fails with −1
and leaves `this` untouched.  Otherwise: accumulate every source's global
statistics and overflow bins, merge every interior bin positionally with
each source's bin of the same index (the loop runs over the sources' common
bin count `nbins`; target bins past `nbins`, would they exist, are left
alone) and update it, run `SetContentToAverage`, and return 1. -/
def MergeList (sq : ℚ → ℚ) (t : TProfile2Poly) (list : List TProfile2Poly) :
    Int × TProfile2Poly :=
  match list with
  | [] => (-1, t)
  | h :: _ =>
    if list.all fun s => s.fBins.length = h.fBins.length then
      let nbins := h.fBins.length
      let t1 := list.foldl mergeGlobals t
      let t2 :=
        { t1 with
          fBins := t1.fBins.mapIdx fun i b =>
            if i < nbins then
              (list.foldl (fun (dst : TProfile2PolyBin) (e : TProfile2Poly) =>
                dst.Merge (e.fBins.getD i default)) b).Update sq
            else b }
      (1, t2.SetContentToAverage sq)
    else (-1, t)

/-- `TProfile2Poly::GetBinEffectiveEntries` (lines 260–265).  Note the
negative branch reads the base class's `fOverflow` content array, not the
`fOverflowBins` accumulators. -/
def GetBinEffectiveEntries (t : TProfile2Poly) (bin : Int) : ℚ :=
  if bin > t.GetNumberOfBins ∨ bin = 0 ∨ bin < -kNOverflow then 0
  else if bin < 0 then t.fOverflow.getD (-bin - 1).toNat 0
  else ((t.fBins.getD (bin - 1).toNat default).GetEffectiveEntries)

/-- `TProfile2Poly::GetBinEntries` (lines 267–272). -/
def GetBinEntries (t : TProfile2Poly) (bin : Int) : ℚ :=
  if bin > t.GetNumberOfBins ∨ bin = 0 ∨ bin < -kNOverflow then 0
  else if bin < 0 then (t.fOverflowBins.getD (-bin - 1).toNat default).GetEntries
  else ((t.fBins.getD (bin - 1).toNat default).GetEntries)

/-- `TProfile2Poly::GetBinEntriesW2` (lines 274–279). -/
def GetBinEntriesW2 (t : TProfile2Poly) (bin : Int) : ℚ :=
  if bin > t.GetNumberOfBins ∨ bin = 0 ∨ bin < -kNOverflow then 0
  else if bin < 0 then (t.fOverflowBins.getD (-bin - 1).toNat default).GetEntriesW2
  else ((t.fBins.getD (bin - 1).toNat default).GetEntriesW2)

/-- `TProfile2Poly::GetBinEntriesVW` (lines 281–286). -/
def GetBinEntriesVW (t : TProfile2Poly) (bin : Int) : ℚ :=
  if bin > t.GetNumberOfBins ∨ bin = 0 ∨ bin < -kNOverflow then 0
  else if bin < 0 then (t.fOverflowBins.getD (-bin - 1).toNat default).GetEntriesVW
  else ((t.fBins.getD (bin - 1).toNat default).GetEntriesVW)

/-- `TProfile2Poly::GetBinEntriesWV2` (lines 288–293). -/
def GetBinEntriesWV2 (t : TProfile2Poly) (bin : Int) : ℚ :=
  if bin > t.GetNumberOfBins ∨ bin = 0 ∨ bin < -kNOverflow then 0
  else if bin < 0 then (t.fOverflowBins.getD (-bin - 1).toNat default).GetEntriesWV2
  else ((t.fBins.getD (bin - 1).toNat default).GetEntriesWV2)

/-- `TProfile2Poly::GetBinError` (lines 295–300). -/
def GetBinError (t : TProfile2Poly) (bin : Int) : ℚ :=
  if bin > t.GetNumberOfBins ∨ bin = 0 ∨ bin < -kNOverflow then 0
  else if bin < 0 then (t.fOverflowBins.getD (-bin - 1).toNat default).GetError
  else ((t.fBins.getD (bin - 1).toNat default).GetError)

end TProfile2Poly

/-- The Σw bookkeeping invariant relating the aggregator's global weight
sum to its 9 overflow accumulators: every sample's weight is recorded once
in `fTsumw` and once in exactly one overflow accumulator. -/
def sumwInvariant (t : TProfile2Poly) : Prop :=
  t.fOverflowBins.length = 9 ∧
    t.fTsumw = (t.fOverflowBins.map TProfile2PolyBin.fSumw).sum

/-- A mutating operation on an aggregator: a sample fill or a merge with a
list of source aggregators. -/
inductive AggOp where
  | fillOp (x y value weight : ℚ)
  | mergeOp (list : List TProfile2Poly)

/-- Apply one operation to an aggregator state (the returned diagnostic of
`Fill` / `Merge` is dropped). -/
def applyOp (sq : ℚ → ℚ) (t : TProfile2Poly) : AggOp → TProfile2Poly
  | .fillOp x y value weight => (t.Fill sq x y value weight).2
  | .mergeOp list => (t.MergeList sq list).2

/-- Apply a sequence of operations, left to right. -/
def applyOps (sq : ℚ → ℚ) (t : TProfile2Poly) (ops : List AggOp) : TProfile2Poly :=
  ops.foldl (applyOp sq) t

/-- The sources fed to every merge operation of the sequence satisfy the
Σw bookkeeping invariant themselves. -/
def opSourcesInv : AggOp → Prop
  | .fillOp _ _ _ _ => True
  | .mergeOp list => ∀ s ∈ list, sumwInvariant s

/-- Apply a sequence of `Fill` calls `(x, y, value, weight)`, left to
right. -/
def applyFills (sq : ℚ → ℚ) (t : TProfile2Poly) (fills : List (ℚ × ℚ × ℚ × ℚ)) :
    TProfile2Poly :=
  fills.foldl (fun a q => (a.Fill sq q.1 q.2.1 q.2.2.1 q.2.2.2).2) t

/-- The membership test of a square region covering the whole `[0,10]²`
domain, for concrete evaluations. -/
def squareInside : ℚ → ℚ → Bool :=
  fun x y => decide (0 ≤ x ∧ x ≤ 10 ∧ 0 ≤ y ∧ y ≤ 10)

/-- The spec's demonstration aggregator: domain `x ∈ [0,10]`, `y ∈ [0,10]`,
one interior bin covering the whole domain. -/
def demoAgg : TProfile2Poly := TProfile2Poly.mk0 0 10 0 10 [squareInside]

/-- A concrete bin with two weight-1 samples of values 2 and 4 recorded:
`Σw = 2`, `Σwv = 6`, `Σw² = 2`, `Σwv² = 20`. -/
def binW : TProfile2PolyBin :=
  { TProfile2PolyBin.mk0 squareInside with
    fSumw := 2, fSumvw := 6, fSumw2 := 2, fSumwv2 := 20 }

namespace TProfile2PolyBin

lemma Update_eq (sq : ℚ → ℚ) (b : TProfile2PolyBin) :
    b.Update sq =
      { b with fAverage := b.averageAfter, fError := b.errorAfter sq, fChanged := true } := by
  rcases b with ⟨sw, svw, sw2, swv2, err, avg, mode, cont, ch, ins⟩
  by_cases h : sw = 0 <;> cases mode <;>
    simp [Update, UpdateAverage, UpdateError, SetChanged, averageAfter, errorAfter,
      GetEffectiveEntries, h]

@[simp] lemma Update_fSumw (sq : ℚ → ℚ) (b : TProfile2PolyBin) :
    (b.Update sq).fSumw = b.fSumw := by simp [Update_eq]

@[simp] lemma Update_fSumvw (sq : ℚ → ℚ) (b : TProfile2PolyBin) :
    (b.Update sq).fSumvw = b.fSumvw := by simp [Update_eq]

@[simp] lemma Update_fSumw2 (sq : ℚ → ℚ) (b : TProfile2PolyBin) :
    (b.Update sq).fSumw2 = b.fSumw2 := by simp [Update_eq]

@[simp] lemma Update_fSumwv2 (sq : ℚ → ℚ) (b : TProfile2PolyBin) :
    (b.Update sq).fSumwv2 = b.fSumwv2 := by simp [Update_eq]

@[simp] lemma Update_fAverage (sq : ℚ → ℚ) (b : TProfile2PolyBin) :
    (b.Update sq).fAverage = b.averageAfter := by simp [Update_eq]

@[simp] lemma Update_fError (sq : ℚ → ℚ) (b : TProfile2PolyBin) :
    (b.Update sq).fError = b.errorAfter sq := by simp [Update_eq]

lemma averageAfter_update_invariant (sq : ℚ → ℚ) (b : TProfile2PolyBin) :
    (b.Update sq).averageAfter = b.averageAfter := by
  by_cases h : b.fSumw = 0 <;> simp [averageAfter, h]

lemma Update_idem (sq : ℚ → ℚ) (b : TProfile2PolyBin) :
    (b.Update sq).Update sq = b.Update sq := by
  rcases b with ⟨sw, svw, sw2, swv2, err, avg, mode, cont, ch, ins⟩
  by_cases h : sw = 0 <;> cases mode <;>
    simp [Update, UpdateAverage, UpdateError, SetChanged, GetEffectiveEntries, h]

lemma Fill_eq_update (sq : ℚ → ℚ) (b : TProfile2PolyBin) (value weight : ℚ) :
    b.Fill sq value weight =
      Update sq
        { b with
          fSumw := b.fSumw + weight
          fSumvw := b.fSumvw + value * weight
          fSumw2 := b.fSumw2 + weight * weight
          fSumwv2 := b.fSumwv2 + weight * value * value } := rfl

@[simp] lemma Fill_fSumw (sq : ℚ → ℚ) (b : TProfile2PolyBin) (value weight : ℚ) :
    (b.Fill sq value weight).fSumw = b.fSumw + weight := by
  rw [Fill_eq_update]; simp

end TProfile2PolyBin

/-- C3: after `Update()` the average is `Σwv/Σw` when `Σw ≠ 0` and is left
frozen at its previous value when `Σw = 0` (a freshly constructed bin has
average 0); when `Σw ≠ 0` the error is `sq variance` in SPREAD mode and
`sq variance / sq effectiveEntries` in MEAN_ERROR and every other mode,
with `variance = Σwv²/Σw − average²` and
`effectiveEntries = Σw²ᵥ/Σw₂` (0 when `Σw₂ = 0`, writing `Σw²ᵥ = Σw·Σw`). -/
theorem C3_update_average_error (sq : ℚ → ℚ) (b : TProfile2PolyBin) :
    (b.fSumw ≠ 0 → (b.Update sq).fAverage = b.fSumvw / b.fSumw) ∧
    (b.fSumw = 0 → (b.Update sq).fAverage = b.fAverage) ∧
    (∀ inside : ℚ → ℚ → Bool, (TProfile2PolyBin.mk0 inside).fAverage = 0) ∧
    (b.fSumw ≠ 0 → b.fErrorMode = kERRORSPREAD →
      (b.Update sq).fError =
        sq (b.fSumwv2 / b.fSumw - (b.fSumvw / b.fSumw) * (b.fSumvw / b.fSumw))) ∧
    (b.fSumw ≠ 0 → b.fErrorMode ≠ kERRORSPREAD →
      (b.Update sq).fError =
        sq (b.fSumwv2 / b.fSumw - (b.fSumvw / b.fSumw) * (b.fSumvw / b.fSumw)) /
          sq (if b.fSumw2 = 0 then 0 else b.fSumw * b.fSumw / b.fSumw2)) := by
  refine ⟨fun h => ?_, fun h => ?_, fun inside => rfl, fun h hm => ?_, fun h hm => ?_⟩
  · simp [TProfile2PolyBin.averageAfter, h]
  · simp [TProfile2PolyBin.averageAfter, h]
  · simp [TProfile2PolyBin.errorAfter, TProfile2PolyBin.averageAfter, h, hm]
  · cases hmode : b.fErrorMode
    · simp [TProfile2PolyBin.errorAfter, TProfile2PolyBin.averageAfter,
        TProfile2PolyBin.GetEffectiveEntries, h, hmode]
    · exact absurd hmode hm
    · simp [TProfile2PolyBin.errorAfter, TProfile2PolyBin.averageAfter,
        TProfile2PolyBin.GetEffectiveEntries, h, hmode]
    · simp [TProfile2PolyBin.errorAfter, TProfile2PolyBin.averageAfter,
        TProfile2PolyBin.GetEffectiveEntries, h, hmode]

/-- Witness for C3 at the concrete bin `binW` (`Σw = 2`, `Σwv = 6`,
`Σw² = 2`, `Σwv² = 20`, SPREAD mode): the updated average is 3 and the
updated error is `sq 1`. -/
theorem C3_update_average_error_witness :
    (binW.Update id).fAverage = 3 ∧ (binW.Update id).fError = id (1 : ℚ) := by
  have h := C3_update_average_error id binW
  refine ⟨?_, ?_⟩
  · have := h.1 (by norm_num [binW])
    rw [this]; norm_num [binW]
  · have := h.2.2.2.1 (by norm_num [binW]) rfl
    rw [this]; norm_num [binW, TProfile2PolyBin.mk0]

/-- C6 counterexample: `TProfile2PolyBin::Fill` itself calls `Update()`
(line 91), so filling a fresh bin with value 2, weight 1 already changes
the stored average (to 2) and the claim that average changes only through
an explicit `Update()` call is false. -/
theorem C6_counterexample :
    (TProfile2PolyBin.mk0 squareInside).fAverage = 0 ∧
      ((TProfile2PolyBin.mk0 squareInside).Fill id 2 1).fAverage = 2 := by
  constructor
  · rfl
  · rw [TProfile2PolyBin.Fill_eq_update, TProfile2PolyBin.Update_fAverage]
    norm_num [TProfile2PolyBin.averageAfter, TProfile2PolyBin.mk0]

/-- C6 amended: `Fill(value, weight)` adds the four moment increments and
then itself invokes `Update()`, so the four moment sums are bumped
additively and average and error are recomputed on every `Fill` as well,
not only through a separate explicit `Update()` call. -/
theorem C6_fill_amended (sq : ℚ → ℚ) (b : TProfile2PolyBin) (value weight : ℚ) :
    b.Fill sq value weight =
      TProfile2PolyBin.Update sq
        { b with
          fSumw := b.fSumw + weight
          fSumvw := b.fSumvw + value * weight
          fSumw2 := b.fSumw2 + weight * weight
          fSumwv2 := b.fSumwv2 + weight * value * value } ∧
    (b.Fill sq value weight).fSumw = b.fSumw + weight ∧
    (b.Fill sq value weight).fSumvw = b.fSumvw + value * weight ∧
    (b.Fill sq value weight).fSumw2 = b.fSumw2 + weight * weight ∧
    (b.Fill sq value weight).fSumwv2 = b.fSumwv2 + weight * value * value := by
  refine ⟨rfl, ?_, ?_, ?_, ?_⟩ <;> rw [TProfile2PolyBin.Fill_eq_update] <;> simp

/-- C7: `TProfile2PolyBin::Merge` adds exactly the four moment sums of the
other bin and leaves every other field untouched; merging is associative
as a whole, commutative on the four moment sums, and folding a merge over
any list of bins accumulates each moment sum additively, so the result is
independent of grouping order. -/
theorem C7_bin_merge_algebra (a b c : TProfile2PolyBin) :
    (a.Merge b =
      { a with
        fSumw := a.fSumw + b.fSumw
        fSumvw := a.fSumvw + b.fSumvw
        fSumw2 := a.fSumw2 + b.fSumw2
        fSumwv2 := a.fSumwv2 + b.fSumwv2 }) ∧
    ((a.Merge b).Merge c = a.Merge (b.Merge c)) ∧
    ((a.Merge b).fSumw = (b.Merge a).fSumw ∧
      (a.Merge b).fSumvw = (b.Merge a).fSumvw ∧
      (a.Merge b).fSumw2 = (b.Merge a).fSumw2 ∧
      (a.Merge b).fSumwv2 = (b.Merge a).fSumwv2) ∧
    (∀ l : List TProfile2PolyBin,
      (l.foldl TProfile2PolyBin.Merge a).fSumw =
          a.fSumw + (l.map TProfile2PolyBin.fSumw).sum ∧
        (l.foldl TProfile2PolyBin.Merge a).fSumvw =
          a.fSumvw + (l.map TProfile2PolyBin.fSumvw).sum ∧
        (l.foldl TProfile2PolyBin.Merge a).fSumw2 =
          a.fSumw2 + (l.map TProfile2PolyBin.fSumw2).sum ∧
        (l.foldl TProfile2PolyBin.Merge a).fSumwv2 =
          a.fSumwv2 + (l.map TProfile2PolyBin.fSumwv2).sum) := by
  refine ⟨rfl, ?_, ⟨?_, ?_, ?_, ?_⟩, ?_⟩
  · simp [TProfile2PolyBin.Merge, add_assoc]
  · simp [TProfile2PolyBin.Merge, add_comm]
  · simp [TProfile2PolyBin.Merge, add_comm]
  · simp [TProfile2PolyBin.Merge, add_comm]
  · simp [TProfile2PolyBin.Merge, add_comm]
  · intro l
    induction l generalizing a with
    | nil => simp
    | cons x xs ih =>
      simpa [TProfile2PolyBin.Merge, add_assoc] using ih (a.Merge x)

lemma sum_map_set (f : TProfile2PolyBin → ℚ) :
    ∀ (l : List TProfile2PolyBin) (i : ℕ), i < l.length → ∀ b : TProfile2PolyBin,
      ((l.set i b).map f).sum = (l.map f).sum - f (l.getD i default) + f b
  | [], i, h, b => absurd h (by simp)
  | a :: l, 0, _, b => by
      simp [List.set_cons_zero]
      ring
  | a :: l, i + 1, h, b => by
      have hi : i < l.length := by simp at h; omega
      have ih := sum_map_set f l i hi b
      simp only [List.set_cons_succ, List.map_cons, List.sum_cons, List.getD_cons_succ, ih]
      ring

lemma getD_zipWith_merge :
    ∀ (a b : List TProfile2PolyBin) (j : ℕ), j < a.length → j < b.length →
      (a.zipWith TProfile2PolyBin.Merge b).getD j default
        = (a.getD j default).Merge (b.getD j default)
  | [], _, j, ha, _ => absurd ha (by simp)
  | _ :: _, [], j, _, hb => absurd hb (by simp)
  | x :: a, y :: b, 0, _, _ => rfl
  | x :: a, y :: b, j + 1, ha, hb => by
      have ha' : j < a.length := by simp at ha; omega
      have hb' : j < b.length := by simp at hb; omega
      simpa using getD_zipWith_merge a b j ha' hb'

lemma sum_map_zipWith_merge :
    ∀ (a b : List TProfile2PolyBin), a.length = b.length →
      ((a.zipWith TProfile2PolyBin.Merge b).map TProfile2PolyBin.fSumw).sum
        = (a.map TProfile2PolyBin.fSumw).sum + (b.map TProfile2PolyBin.fSumw).sum
  | [], [], _ => by simp
  | [], _ :: _, h => by simp at h
  | _ :: _, [], h => by simp at h
  | x :: a, y :: b, h => by
      have ih := sum_map_zipWith_merge a b (by simpa using h)
      simp [TProfile2PolyBin.Merge, ih]
      ring

lemma foldl_mergeGlobals_eq :
    ∀ (list : List TProfile2Poly) (t : TProfile2Poly),
      list.foldl TProfile2Poly.mergeGlobals t =
        { t with
          fEntries := t.fEntries + (list.map TProfile2Poly.fEntries).sum
          fTsumw := t.fTsumw + (list.map TProfile2Poly.fTsumw).sum
          fTsumw2 := t.fTsumw2 + (list.map TProfile2Poly.fTsumw2).sum
          fTsumwx := t.fTsumwx + (list.map TProfile2Poly.fTsumwx).sum
          fTsumwx2 := t.fTsumwx2 + (list.map TProfile2Poly.fTsumwx2).sum
          fTsumwy := t.fTsumwy + (list.map TProfile2Poly.fTsumwy).sum
          fTsumwy2 := t.fTsumwy2 + (list.map TProfile2Poly.fTsumwy2).sum
          fTsumwxy := t.fTsumwxy + (list.map TProfile2Poly.fTsumwxy).sum
          fTsumwz := t.fTsumwz + (list.map TProfile2Poly.fTsumwz).sum
          fTsumwz2 := t.fTsumwz2 + (list.map TProfile2Poly.fTsumwz2).sum
          fOverflowBins :=
            list.foldl (fun a h => a.zipWith TProfile2PolyBin.Merge h.fOverflowBins)
              t.fOverflowBins }
  | [], t => by simp
  | h :: rest, t => by
      rw [List.foldl_cons, foldl_mergeGlobals_eq rest]
      simp [TProfile2Poly.mergeGlobals, add_assoc]

lemma foldl_overflow_length :
    ∀ (list : List TProfile2Poly) (init : List TProfile2PolyBin),
      init.length = 9 → (∀ s ∈ list, s.fOverflowBins.length = 9) →
      (list.foldl (fun a h => a.zipWith TProfile2PolyBin.Merge h.fOverflowBins) init).length
        = 9
  | [], _, hi, _ => hi
  | h :: rest, init, hi, hall => by
      rw [List.foldl_cons]
      refine foldl_overflow_length rest _ ?_ fun s hs => hall s (by simp [hs])
      simp [hi, hall h (by simp)]

lemma foldl_overflow_getD :
    ∀ (list : List TProfile2Poly) (init : List TProfile2PolyBin),
      init.length = 9 → (∀ s ∈ list, s.fOverflowBins.length = 9) → ∀ j : ℕ, j < 9 →
      (list.foldl (fun a h => a.zipWith TProfile2PolyBin.Merge h.fOverflowBins) init).getD
          j default
        = list.foldl (fun bb e => bb.Merge (e.fOverflowBins.getD j default))
            (init.getD j default)
  | [], _, _, _, _, _ => rfl
  | h :: rest, init, hi, hall, j, hj => by
      have h9 : h.fOverflowBins.length = 9 := hall h (by simp)
      rw [List.foldl_cons, List.foldl_cons,
        foldl_overflow_getD rest _ (by simp [hi, h9]) (fun s hs => hall s (by simp [hs])) j hj,
        getD_zipWith_merge init h.fOverflowBins j (by omega) (by omega)]

lemma foldl_overflow_sum :
    ∀ (list : List TProfile2Poly) (init : List TProfile2PolyBin),
      init.length = 9 → (∀ s ∈ list, s.fOverflowBins.length = 9) →
      ((list.foldl (fun a h => a.zipWith TProfile2PolyBin.Merge h.fOverflowBins) init).map
          TProfile2PolyBin.fSumw).sum
        = (init.map TProfile2PolyBin.fSumw).sum
            + (list.map fun s => (s.fOverflowBins.map TProfile2PolyBin.fSumw).sum).sum
  | [], _, _, _ => by simp
  | h :: rest, init, hi, hall => by
      have h9 : h.fOverflowBins.length = 9 := hall h (by simp)
      rw [List.foldl_cons,
        foldl_overflow_sum rest _ (by simp [hi, h9]) (fun s hs => hall s (by simp [hs])),
        sum_map_zipWith_merge init h.fOverflowBins (by omega)]
      simp [add_assoc]

lemma Fill_fst (sq : ℚ → ℚ) (t : TProfile2Poly) (x y value weight : ℚ) :
    (t.Fill sq x y value weight).1 = t.GetOverflowRegionFromCoordinates x y := rfl

lemma Fill_fTsumw (sq : ℚ → ℚ) (t : TProfile2Poly) (x y value weight : ℚ) :
    (t.Fill sq x y value weight).2.fTsumw = t.fTsumw + weight := rfl

lemma Fill_fEntries (sq : ℚ → ℚ) (t : TProfile2Poly) (x y value weight : ℚ) :
    (t.Fill sq x y value weight).2.fEntries =
      t.fEntries + ((t.fBins.filter fun b => b.isInside x y).length : ℚ) := rfl

lemma Fill_fOverflowBins (sq : ℚ → ℚ) (t : TProfile2Poly) (x y value weight : ℚ) :
    (t.Fill sq x y value weight).2.fOverflowBins =
      t.fOverflowBins.set
        (TProfile2Poly.OverflowIdxToArrayIdx
          (t.GetOverflowRegionFromCoordinates x y)).toNat
        ((t.fOverflowBins.getD
            (TProfile2Poly.OverflowIdxToArrayIdx
              (t.GetOverflowRegionFromCoordinates x y)).toNat default).Fill sq value
          weight) := rfl

lemma overflowRegion_bounds (t : TProfile2Poly) (x y : ℚ) :
    -9 ≤ t.GetOverflowRegionFromCoordinates x y ∧
      t.GetOverflowRegionFromCoordinates x y ≤ 0 := by
  unfold TProfile2Poly.GetOverflowRegionFromCoordinates
  split_ifs <;> constructor <;> norm_num

lemma overflowArrayIdx_lt (t : TProfile2Poly) (x y : ℚ) :
    (TProfile2Poly.OverflowIdxToArrayIdx (t.GetOverflowRegionFromCoordinates x y)).toNat
      < 9 := by
  have h := overflowRegion_bounds t x y
  unfold TProfile2Poly.OverflowIdxToArrayIdx
  omega

lemma fill_overflow_length (sq : ℚ → ℚ) (t : TProfile2Poly) (x y value weight : ℚ) :
    (t.Fill sq x y value weight).2.fOverflowBins.length = t.fOverflowBins.length := by
  rw [Fill_fOverflowBins]
  simp

lemma fill_overflow_sum (sq : ℚ → ℚ) (t : TProfile2Poly) (x y value weight : ℚ)
    (hlen : t.fOverflowBins.length = 9) :
    ((t.Fill sq x y value weight).2.fOverflowBins.map TProfile2PolyBin.fSumw).sum
      = (t.fOverflowBins.map TProfile2PolyBin.fSumw).sum + weight := by
  have hidx :
      (TProfile2Poly.OverflowIdxToArrayIdx
        (t.GetOverflowRegionFromCoordinates x y)).toNat < t.fOverflowBins.length := by
    rw [hlen]; exact overflowArrayIdx_lt t x y
  rw [Fill_fOverflowBins, sum_map_set TProfile2PolyBin.fSumw t.fOverflowBins _ hidx,
    TProfile2PolyBin.Fill_fSumw]
  ring

lemma sumwInvariant_fill (sq : ℚ → ℚ) (t : TProfile2Poly) (x y value weight : ℚ)
    (h : sumwInvariant t) : sumwInvariant (t.Fill sq x y value weight).2 := by
  obtain ⟨hlen, hsum⟩ := h
  refine ⟨by rw [fill_overflow_length, hlen], ?_⟩
  rw [Fill_fTsumw, fill_overflow_sum sq t x y value weight hlen, hsum]

lemma mergeList_success (sq : ℚ → ℚ) (t h : TProfile2Poly) (rest : List TProfile2Poly)
    (hguard : ∀ s ∈ h :: rest, s.fBins.length = h.fBins.length) :
    t.MergeList sq (h :: rest) =
      (1, TProfile2Poly.SetContentToAverage sq
        { (h :: rest).foldl TProfile2Poly.mergeGlobals t with
          fBins :=
            ((h :: rest).foldl TProfile2Poly.mergeGlobals t).fBins.mapIdx fun i b =>
              if i < h.fBins.length then
                ((h :: rest).foldl
                  (fun (dst : TProfile2PolyBin) (e : TProfile2Poly) =>
                    dst.Merge (e.fBins.getD i default)) b).Update sq
              else b }) := by
  have hg : ((h :: rest).all fun s => s.fBins.length = h.fBins.length) = true := by
    rw [List.all_eq_true]
    intro s hs
    exact decide_eq_true (hguard s hs)
  simp [TProfile2Poly.MergeList, hg]

lemma mergeList_failure (sq : ℚ → ℚ) (t : TProfile2Poly) (list : List TProfile2Poly)
    (hfail : list = [] ∨
      ∃ s₁ ∈ list, ∃ s₂ ∈ list, s₁.fBins.length ≠ s₂.fBins.length) :
    t.MergeList sq list = (-1, t) := by
  match list with
  | [] => rfl
  | h :: rest =>
    rcases hfail with hnil | ⟨s₁, hs₁, s₂, hs₂, hne⟩
    · exact absurd hnil (by simp)
    · have hg : ¬ ((h :: rest).all fun s => s.fBins.length = h.fBins.length) = true := by
        rw [List.all_eq_true]
        intro hall
        have h1 := of_decide_eq_true (hall s₁ hs₁)
        have h2 := of_decide_eq_true (hall s₂ hs₂)
        exact hne (h1.trans h2.symm)
      simp [TProfile2Poly.MergeList, hg]

lemma setContentToAverage_fOverflowBins (sq : ℚ → ℚ) (t : TProfile2Poly) :
    (t.SetContentToAverage sq).fOverflowBins = t.fOverflowBins := rfl

lemma setContentToAverage_fTsumw (sq : ℚ → ℚ) (t : TProfile2Poly) :
    (t.SetContentToAverage sq).fTsumw = t.fTsumw := rfl

lemma sumwInvariant_mergeList (sq : ℚ → ℚ) (t : TProfile2Poly)
    (list : List TProfile2Poly) (ht : sumwInvariant t)
    (hs : ∀ s ∈ list, sumwInvariant s) : sumwInvariant (t.MergeList sq list).2 := by
  obtain ⟨hlen, hsum⟩ := ht
  match list with
  | [] => exact ⟨hlen, hsum⟩
  | h :: rest =>
    by_cases hguard : ∀ s ∈ h :: rest, s.fBins.length = h.fBins.length
    · rw [mergeList_success sq t h rest hguard]
      have hov : ∀ s ∈ h :: rest, s.fOverflowBins.length = 9 := fun s hs' => (hs s hs').1
      refine ⟨?_, ?_⟩
      · show (((h :: rest).foldl TProfile2Poly.mergeGlobals t).fOverflowBins).length = 9
        rw [foldl_mergeGlobals_eq]
        exact foldl_overflow_length (h :: rest) t.fOverflowBins hlen hov
      · show ((h :: rest).foldl TProfile2Poly.mergeGlobals t).fTsumw =
          ((((h :: rest).foldl TProfile2Poly.mergeGlobals t).fOverflowBins).map
            TProfile2PolyBin.fSumw).sum
        rw [foldl_mergeGlobals_eq]
        show t.fTsumw + ((h :: rest).map TProfile2Poly.fTsumw).sum = _
        rw [foldl_overflow_sum (h :: rest) t.fOverflowBins hlen hov, hsum]
        have : ((h :: rest).map fun s =>
            (s.fOverflowBins.map TProfile2PolyBin.fSumw).sum)
            = (h :: rest).map TProfile2Poly.fTsumw :=
          List.map_congr_left fun s hs' => ((hs s hs').2).symm
        rw [this]
    · have hfail : t.MergeList sq (h :: rest) = (-1, t) := by
        apply mergeList_failure
        right
        push_neg at hguard
        obtain ⟨s₁, hs₁, hne⟩ := hguard
        exact ⟨s₁, hs₁, h, by simp, hne⟩
      rw [hfail]
      exact ⟨hlen, hsum⟩

lemma sumwInvariant_mk0 (xmin xmax ymin ymax : ℚ) (regions : List (ℚ → ℚ → Bool)) :
    sumwInvariant (TProfile2Poly.mk0 xmin xmax ymin ymax regions) := by
  constructor
  · simp [TProfile2Poly.mk0]
  · simp [TProfile2Poly.mk0, TProfile2PolyBin.mk0]

lemma sumwInvariant_applyOps (sq : ℚ → ℚ) (ops : List AggOp) :
    ∀ t : TProfile2Poly, sumwInvariant t → (∀ op ∈ ops, opSourcesInv op) →
      sumwInvariant (applyOps sq t ops) := by
  induction ops with
  | nil => intro t ht _; exact ht
  | cons op rest ih =>
    intro t ht hall
    show sumwInvariant (applyOps sq (applyOp sq t op) rest)
    refine ih _ ?_ fun o ho => hall o (by simp [ho])
    cases op with
    | fillOp x y value weight => exact sumwInvariant_fill sq t x y value weight ht
    | mergeOp list =>
      exact sumwInvariant_mergeList sq t list ht (hall (.mergeOp list) (by simp))

/-- C1 counterexample: on the spec's own scenario — domain `[0,10] × [0,10]`,
one interior bin covering the whole domain — `Fill(5, 5, 10, 1)` is a
sample inside the domain, yet the call returns −5 (the centre region id of
`GetOverflowRegionFromCoordinates`), not 0 as the claim states. -/
theorem C1_counterexample :
    demoAgg.fXmin ≤ 5 ∧ (5 : ℚ) ≤ demoAgg.fXmax ∧ demoAgg.fYmin ≤ 5 ∧
      (5 : ℚ) ≤ demoAgg.fYmax ∧ (demoAgg.Fill id 5 5 10 1).1 = -5 ∧
      (demoAgg.Fill id 5 5 10 1).1 ≠ 0 := by
  refine ⟨by norm_num [demoAgg, TProfile2Poly.mk0], by norm_num [demoAgg, TProfile2Poly.mk0],
    by norm_num [demoAgg, TProfile2Poly.mk0], by norm_num [demoAgg, TProfile2Poly.mk0],
    ?_, ?_⟩ <;>
    rw [Fill_fst] <;>
    norm_num [demoAgg, TProfile2Poly.mk0, TProfile2Poly.GetOverflowRegionFromCoordinates]

/-- C1 amended: with at least one registered interior bin, `Fill` returns
the id computed by `GetOverflowRegionFromCoordinates`, and that id is −5
(the centre region covering the domain) exactly when
`xmin < x ≤ xmax ∧ ymin < y ≤ ymax`; for samples outside those bounds it
is the id of the overflow region (≠ −5) the sample fell into.  The claim's
return value 0 for in-domain samples is wrong: 0 is returned only when no
interior bin exists. -/
theorem C1_fill_return_amended (sq : ℚ → ℚ) (t : TProfile2Poly) (x y value weight : ℚ)
    (hb : t.fBins ≠ []) :
    (t.Fill sq x y value weight).1 = t.GetOverflowRegionFromCoordinates x y ∧
    (t.GetOverflowRegionFromCoordinates x y = -5 ↔
      t.fXmin < x ∧ x ≤ t.fXmax ∧ t.fYmin < y ∧ y ≤ t.fYmax) := by
  refine ⟨Fill_fst sq t x y value weight, ?_⟩
  have hb' : ¬ t.fBins.length = 0 := by simpa [List.length_eq_zero] using hb
  unfold TProfile2Poly.GetOverflowRegionFromCoordinates
  rw [if_neg hb']
  split_ifs <;> constructor <;> intro h' <;>
    first
      | exact absurd h' (by decide)
      | exact ⟨by linarith, by linarith, by linarith, by linarith⟩
      | decide
      | (exfalso; obtain ⟨c1, c2, c3, c4⟩ := h'; linarith)

/-- Witness for the amended C1 on the concrete demonstration aggregator. -/
theorem C1_fill_return_amended_witness :
    (demoAgg.Fill id 5 5 10 1).1 = demoAgg.GetOverflowRegionFromCoordinates 5 5 :=
  (C1_fill_return_amended id demoAgg 5 5 10 1 (by simp [demoAgg, TProfile2Poly.mk0])).1

/-- C2 counterexample: after the single in-domain fill `Fill(5, 5, 10, 1)`
on the demonstration aggregator the global Σw is 1, but the weight was
recorded twice among the accumulators — once in the containing interior
bin and once in the centre overflow accumulator — so the sum of all
interior plus overflow `sumWeight`s is 2 and the claimed invariant fails. -/
theorem C2_counterexample :
    (demoAgg.Fill id 5 5 10 1).2.fTsumw ≠
      ((demoAgg.Fill id 5 5 10 1).2.fBins.map TProfile2PolyBin.fSumw).sum
        + ((demoAgg.Fill id 5 5 10 1).2.fOverflowBins.map TProfile2PolyBin.fSumw).sum := by
  rw [Fill_fTsumw, Fill_fOverflowBins]
  norm_num [demoAgg, TProfile2Poly.mk0, TProfile2PolyBin.mk0, TProfile2Poly.Fill,
    TProfile2PolyBin.SetContent, squareInside,
    TProfile2Poly.GetOverflowRegionFromCoordinates, TProfile2Poly.OverflowIdxToArrayIdx,
    List.sum_set]

/-- C2 amended: after any sequence of `Fill` and `Merge` operations on a
freshly constructed aggregator (where the aggregators fed to each merge
themselves satisfy the same bookkeeping), the global Σw equals the sum of
the 9 overflow accumulators' `sumWeight` alone; interior bins record an
in-domain sample's weight a second time, so including them double-counts. -/
theorem C2_sumw_invariant_amended (sq : ℚ → ℚ) (xmin xmax ymin ymax : ℚ)
    (regions : List (ℚ → ℚ → Bool)) (ops : List AggOp)
    (hops : ∀ op ∈ ops, opSourcesInv op) :
    sumwInvariant (applyOps sq (TProfile2Poly.mk0 xmin xmax ymin ymax regions) ops) :=
  sumwInvariant_applyOps sq ops _ (sumwInvariant_mk0 xmin xmax ymin ymax regions) hops

/-- Witness for the amended C2: a fill followed by a merge with an empty
source list on the demonstration domain. -/
theorem C2_sumw_invariant_amended_witness :
    sumwInvariant (applyOps id (TProfile2Poly.mk0 0 10 0 10 [squareInside])
      [AggOp.fillOp 5 5 10 1, AggOp.mergeOp []]) := by
  refine C2_sumw_invariant_amended id 0 10 0 10 [squareInside] _ ?_
  intro op hop
  simp only [List.mem_cons, List.not_mem_nil, or_false] at hop
  rcases hop with rfl | rfl
  · trivial
  · intro s hs
    exact absurd hs (List.not_mem_nil s)

/-- C9 counterexample: with the demonstration domain `[0,10] × [0,10]`, the
boundary sample `x = 0 = xmin`, `y = 5` satisfies `xmin ≤ x ≤ xmax` but is
classified into region −4, which lies in the left overflow column — the
classification uses strict comparison against `xmin`, so the claim's
"never the left or right column for `xmin ≤ x ≤ xmax`" fails at `x = xmin`. -/
theorem C9_counterexample :
    demoAgg.fXmin ≤ 0 ∧ (0 : ℚ) ≤ demoAgg.fXmax ∧
      demoAgg.GetOverflowRegionFromCoordinates 0 5 = -4 ∧
      (-4 : ℤ) ∈ ([-1, -4, -7, -3, -6, -9] : List ℤ) := by
  refine ⟨by norm_num [demoAgg, TProfile2Poly.mk0], by norm_num [demoAgg, TProfile2Poly.mk0],
    ?_, by decide⟩
  norm_num [demoAgg, TProfile2Poly.mk0, TProfile2Poly.GetOverflowRegionFromCoordinates]

/-- C9 amended: over a proper domain (`xmin ≤ xmax`, `ymin ≤ ymax`) with at
least one interior bin: a sample with `x < xmin` and `y < ymin` classifies
to the bottom-left bucket (region −7); every fill adds its weight to the
global Σw; interior entries stay unchanged when no interior polygon
contains the sample; and a sample with `xmin < x ≤ xmax` (strictly right
of the lower edge — `x = xmin` itself falls in the left column) is never
classified into the left or right overflow column. -/
theorem C9_overflow_grid_amended (sq : ℚ → ℚ) (t : TProfile2Poly) (x y value weight : ℚ)
    (hb : t.fBins ≠ []) (hdx : t.fXmin ≤ t.fXmax) (hdy : t.fYmin ≤ t.fYmax) :
    (x < t.fXmin → y < t.fYmin → (t.Fill sq x y value weight).1 = -7) ∧
    (t.Fill sq x y value weight).2.fTsumw = t.fTsumw + weight ∧
    ((∀ b ∈ t.fBins, b.isInside x y = false) →
      (t.Fill sq x y value weight).2.fEntries = t.fEntries) ∧
    (t.fXmin < x → x ≤ t.fXmax →
      t.GetOverflowRegionFromCoordinates x y ∉ ([-1, -4, -7, -3, -6, -9] : List ℤ)) := by
  have hb' : ¬ t.fBins.length = 0 := by simpa [List.length_eq_zero] using hb
  refine ⟨fun hx hy => ?_, Fill_fTsumw sq t x y value weight, fun hout => ?_,
    fun hx1 hx2 => ?_⟩
  · rw [Fill_fst]
    unfold TProfile2Poly.GetOverflowRegionFromCoordinates
    rw [if_neg hb']
    have h1 : ¬ t.fYmax < y := not_lt.mpr (le_of_lt (lt_of_lt_of_le hy hdy))
    have h2 : ¬ t.fYmin < y := not_lt.mpr (le_of_lt hy)
    have h3 : ¬ t.fXmax < x := not_lt.mpr (le_of_lt (lt_of_lt_of_le hx hdx))
    have h4 : ¬ t.fXmin < x := not_lt.mpr (le_of_lt hx)
    simp [h1, h2, h3, h4]
  · rw [Fill_fEntries]
    have hnil : t.fBins.filter (fun b => b.isInside x y) = [] := by
      rw [List.filter_eq_nil_iff]
      intro a ha
      simp [hout a ha]
    simp [hnil]
  · unfold TProfile2Poly.GetOverflowRegionFromCoordinates
    rw [if_neg hb']
    have h3 : ¬ t.fXmax < x := not_lt.mpr hx2
    simp only [gt_iff_lt]
    rw [if_neg h3, if_pos hx1]
    split_ifs <;> decide

/-- Witness for the amended C9: `Fill(−1, −1, 5, 1)` on the demonstration
aggregator classifies to the bottom-left bucket −7. -/
theorem C9_overflow_grid_amended_witness :
    (demoAgg.Fill id (-1) (-1) 5 1).1 = -7 :=
  (C9_overflow_grid_amended id demoAgg (-1) (-1) 5 1
      (by simp [demoAgg, TProfile2Poly.mk0])
      (by norm_num [demoAgg, TProfile2Poly.mk0])
      (by norm_num [demoAgg, TProfile2Poly.mk0])).1
    (by norm_num [demoAgg, TProfile2Poly.mk0])
    (by norm_num [demoAgg, TProfile2Poly.mk0])

/-- C10: every `Fill` records the sample's weight in exactly one of the 9
overflow accumulators (the slot its region id maps to; interior samples hit
the centre slot) and adds the same weight to the global Σw once, so the sum
of the 9 overflow `sumWeight`s rises in lockstep with Σw, and after any
sequence of fills on a freshly constructed aggregator the two agree. -/
theorem C10_fill_overflow_weight (sq : ℚ → ℚ) (t : TProfile2Poly)
    (x y value weight : ℚ) (hlen : t.fOverflowBins.length = 9) :
    (∃ j : ℕ, j < 9 ∧
      (t.Fill sq x y value weight).2.fOverflowBins
        = t.fOverflowBins.set j ((t.fOverflowBins.getD j default).Fill sq value weight)) ∧
    (t.Fill sq x y value weight).2.fTsumw = t.fTsumw + weight ∧
    ((t.Fill sq x y value weight).2.fOverflowBins.map TProfile2PolyBin.fSumw).sum
      = (t.fOverflowBins.map TProfile2PolyBin.fSumw).sum + weight ∧
    ∀ (xmin xmax ymin ymax : ℚ) (regions : List (ℚ → ℚ → Bool))
      (fills : List (ℚ × ℚ × ℚ × ℚ)),
      (applyFills sq (TProfile2Poly.mk0 xmin xmax ymin ymax regions) fills).fTsumw
        = ((applyFills sq (TProfile2Poly.mk0 xmin xmax ymin ymax regions)
            fills).fOverflowBins.map TProfile2PolyBin.fSumw).sum := by
  refine ⟨⟨_, overflowArrayIdx_lt t x y, Fill_fOverflowBins sq t x y value weight⟩,
    Fill_fTsumw sq t x y value weight, fill_overflow_sum sq t x y value weight hlen, ?_⟩
  intro xmin xmax ymin ymax regions fills
  have H : ∀ (fs : List (ℚ × ℚ × ℚ × ℚ)) (t0 : TProfile2Poly), sumwInvariant t0 →
      sumwInvariant (applyFills sq t0 fs) := by
    intro fs
    induction fs with
    | nil => intro t0 h0; exact h0
    | cons q rest ih =>
      intro t0 h0
      exact ih _ (sumwInvariant_fill sq t0 q.1 q.2.1 q.2.2.1 q.2.2.2 h0)
  exact (H fills _ (sumwInvariant_mk0 xmin xmax ymin ymax regions)).2

/-- Witness for C10 on the demonstration aggregator. -/
theorem C10_fill_overflow_weight_witness :
    (demoAgg.Fill id 5 5 10 1).2.fTsumw = demoAgg.fTsumw + 1 :=
  (C10_fill_overflow_weight id demoAgg 5 5 10 1 rfl).2.1

lemma setContentToAverage_fBins (sq : ℚ → ℚ) (t : TProfile2Poly) :
    (t.SetContentToAverage sq).fBins
      = t.fBins.map (TProfile2Poly.updateAndSetAverage sq) := rfl

lemma updateAndSetAverage_content (sq : ℚ → ℚ) (b : TProfile2PolyBin) :
    (TProfile2Poly.updateAndSetAverage sq b).fContent
      = (TProfile2Poly.updateAndSetAverage sq b).fAverage := by
  simp [TProfile2Poly.updateAndSetAverage, TProfile2PolyBin.SetContent]

lemma updateAndSetAverage_update (sq : ℚ → ℚ) (b : TProfile2PolyBin) :
    TProfile2Poly.updateAndSetAverage sq (b.Update sq)
      = TProfile2Poly.updateAndSetAverage sq b := by
  simp [TProfile2Poly.updateAndSetAverage, TProfile2PolyBin.Update_idem]

/-- C4: `Merge` fails with −1 and leaves the target aggregator completely
unmodified — the returned state is the untouched input state — whenever the
source list is empty or two sources report different interior bin counts. -/
theorem C4_merge_failure_unmodified (sq : ℚ → ℚ) (t : TProfile2Poly)
    (list : List TProfile2Poly)
    (hfail : list = [] ∨
      ∃ s₁ ∈ list, ∃ s₂ ∈ list, s₁.fBins.length ≠ s₂.fBins.length) :
    t.MergeList sq list = (-1, t) :=
  mergeList_failure sq t list hfail

/-- Witness for C4: merging an empty source list into the demonstration
aggregator fails with −1 and returns it unchanged. -/
theorem C4_merge_failure_unmodified_witness :
    demoAgg.MergeList id [] = (-1, demoAgg) :=
  C4_merge_failure_unmodified id demoAgg [] (Or.inl rfl)

/-- C8: every per-bin accessor translates the external bin number the same
way: a positive number `b ≤ N` (N the interior bin count) reads interior
bin `b − 1`; a negative number `−9 ≤ b < 0` reads the overflow storage at
`−b − 1` (the overflow accumulator array, except `GetBinEffectiveEntries`,
which reads the base class's `fOverflow` content array); `b = 0`, `b > N`
and `b < −9` all return 0 instead of signalling an error. -/
theorem C8_accessor_indexing (t : TProfile2Poly) (bin : ℤ) :
    ((0 < bin ∧ bin ≤ (t.fBins.length : ℤ)) →
      (t.GetBinEntries bin
          = (t.fBins.getD (bin - 1).toNat default).GetEntries ∧
        t.GetBinEffectiveEntries bin
          = (t.fBins.getD (bin - 1).toNat default).GetEffectiveEntries ∧
        t.GetBinEntriesW2 bin
          = (t.fBins.getD (bin - 1).toNat default).GetEntriesW2 ∧
        t.GetBinEntriesVW bin
          = (t.fBins.getD (bin - 1).toNat default).GetEntriesVW ∧
        t.GetBinEntriesWV2 bin
          = (t.fBins.getD (bin - 1).toNat default).GetEntriesWV2 ∧
        t.GetBinError bin
          = (t.fBins.getD (bin - 1).toNat default).GetError)) ∧
    ((-9 ≤ bin ∧ bin < 0) →
      (t.GetBinEntries bin
          = (t.fOverflowBins.getD (-bin - 1).toNat default).GetEntries ∧
        t.GetBinEffectiveEntries bin = t.fOverflow.getD (-bin - 1).toNat 0 ∧
        t.GetBinEntriesW2 bin
          = (t.fOverflowBins.getD (-bin - 1).toNat default).GetEntriesW2 ∧
        t.GetBinEntriesVW bin
          = (t.fOverflowBins.getD (-bin - 1).toNat default).GetEntriesVW ∧
        t.GetBinEntriesWV2 bin
          = (t.fOverflowBins.getD (-bin - 1).toNat default).GetEntriesWV2 ∧
        t.GetBinError bin
          = (t.fOverflowBins.getD (-bin - 1).toNat default).GetError)) ∧
    ((bin = 0 ∨ bin > (t.fBins.length : ℤ) ∨ bin < -9) →
      (t.GetBinEntries bin = 0 ∧ t.GetBinEffectiveEntries bin = 0 ∧
        t.GetBinEntriesW2 bin = 0 ∧ t.GetBinEntriesVW bin = 0 ∧
        t.GetBinEntriesWV2 bin = 0 ∧ t.GetBinError bin = 0)) := by
  refine ⟨fun h => ?_, fun h => ?_, fun h => ?_⟩
  · have hg : ¬ (bin > t.GetNumberOfBins ∨ bin = 0 ∨ bin < -kNOverflow) := by
      simp only [TProfile2Poly.GetNumberOfBins, kNOverflow]
      omega
    have hneg : ¬ bin < 0 := by omega
    exact ⟨by rw [TProfile2Poly.GetBinEntries, if_neg hg, if_neg hneg],
      by rw [TProfile2Poly.GetBinEffectiveEntries, if_neg hg, if_neg hneg],
      by rw [TProfile2Poly.GetBinEntriesW2, if_neg hg, if_neg hneg],
      by rw [TProfile2Poly.GetBinEntriesVW, if_neg hg, if_neg hneg],
      by rw [TProfile2Poly.GetBinEntriesWV2, if_neg hg, if_neg hneg],
      by rw [TProfile2Poly.GetBinError, if_neg hg, if_neg hneg]⟩
  · have hg : ¬ (bin > t.GetNumberOfBins ∨ bin = 0 ∨ bin < -kNOverflow) := by
      simp only [TProfile2Poly.GetNumberOfBins, kNOverflow]
      refine not_or.mpr ⟨?_, not_or.mpr ⟨by omega, by omega⟩⟩
      have : (0 : ℤ) ≤ (t.fBins.length : ℤ) := Int.ofNat_nonneg _
      omega
    have hneg : bin < 0 := h.2
    exact ⟨by rw [TProfile2Poly.GetBinEntries, if_neg hg, if_pos hneg],
      by rw [TProfile2Poly.GetBinEffectiveEntries, if_neg hg, if_pos hneg],
      by rw [TProfile2Poly.GetBinEntriesW2, if_neg hg, if_pos hneg],
      by rw [TProfile2Poly.GetBinEntriesVW, if_neg hg, if_pos hneg],
      by rw [TProfile2Poly.GetBinEntriesWV2, if_neg hg, if_pos hneg],
      by rw [TProfile2Poly.GetBinError, if_neg hg, if_pos hneg]⟩
  · have hg : bin > t.GetNumberOfBins ∨ bin = 0 ∨ bin < -kNOverflow := by
      simp only [TProfile2Poly.GetNumberOfBins, kNOverflow]
      omega
    exact ⟨by rw [TProfile2Poly.GetBinEntries, if_pos hg],
      by rw [TProfile2Poly.GetBinEffectiveEntries, if_pos hg],
      by rw [TProfile2Poly.GetBinEntriesW2, if_pos hg],
      by rw [TProfile2Poly.GetBinEntriesVW, if_pos hg],
      by rw [TProfile2Poly.GetBinEntriesWV2, if_pos hg],
      by rw [TProfile2Poly.GetBinError, if_pos hg]⟩

/-- Witness for C8: on the demonstration aggregator, bin number 1 reads
interior bin 0 and bin number 0 reads the safe default 0. -/
theorem C8_accessor_indexing_witness :
    demoAgg.GetBinEntries 1 = (demoAgg.fBins.getD 0 default).GetEntries ∧
      demoAgg.GetBinEntries 0 = 0 := by
  constructor
  · exact ((C8_accessor_indexing demoAgg 1).1 (by simp [demoAgg, TProfile2Poly.mk0])).1
  · exact ((C8_accessor_indexing demoAgg 0).2.2 (Or.inl rfl)).1

lemma getElem_mapIdx_bins (l : List TProfile2PolyBin)
    (f : ℕ → TProfile2PolyBin → TProfile2PolyBin) (i : ℕ) (hi : i < l.length)
    (h2 : i < (l.mapIdx f).length) : (l.mapIdx f)[i] = f i l[i] := by
  rw [← List.get_eq_getElem _ ⟨i, h2⟩, ← List.get_eq_getElem _ ⟨i, hi⟩, List.get_mapIdx]

lemma mergeList_success_bins_getD (sq : ℚ → ℚ) (t h : TProfile2Poly)
    (rest : List TProfile2Poly)
    (hguard : ∀ s ∈ h :: rest, s.fBins.length = h.fBins.length)
    (hlen_t : t.fBins.length = h.fBins.length) (i : ℕ) (hi : i < t.fBins.length) :
    (t.MergeList sq (h :: rest)).2.fBins.getD i default
      = TProfile2Poly.updateAndSetAverage sq
          ((h :: rest).foldl
            (fun (bb : TProfile2PolyBin) (e : TProfile2Poly) =>
              bb.Merge (e.fBins.getD i default))
            (t.fBins.getD i default)) := by
  have hGbins : ((h :: rest).foldl TProfile2Poly.mergeGlobals t).fBins = t.fBins := by
    rw [foldl_mergeGlobals_eq]
  rw [mergeList_success sq t h rest hguard, setContentToAverage_fBins]
  show ((((h :: rest).foldl TProfile2Poly.mergeGlobals t).fBins.mapIdx fun j b =>
      if j < h.fBins.length then
        ((h :: rest).foldl
          (fun (dst : TProfile2PolyBin) (e : TProfile2Poly) =>
            dst.Merge (e.fBins.getD j default)) b).Update sq
      else b).map (TProfile2Poly.updateAndSetAverage sq)).getD i default = _
  rw [hGbins]
  have hi2 : i < (t.fBins.mapIdx fun j b =>
      if j < h.fBins.length then
        ((h :: rest).foldl
          (fun (dst : TProfile2PolyBin) (e : TProfile2Poly) =>
            dst.Merge (e.fBins.getD j default)) b).Update sq
      else b).length := by
    simpa using hi
  have hi3 : i < ((t.fBins.mapIdx fun j b =>
      if j < h.fBins.length then
        ((h :: rest).foldl
          (fun (dst : TProfile2PolyBin) (e : TProfile2Poly) =>
            dst.Merge (e.fBins.getD j default)) b).Update sq
      else b).map (TProfile2Poly.updateAndSetAverage sq)).length := by
    simpa using hi
  rw [List.getD_eq_getElem _ _ hi3, List.getElem_map, getElem_mapIdx_bins _ _ i hi hi2,
    if_pos (hlen_t ▸ hi), List.getD_eq_getElem _ _ hi, updateAndSetAverage_update]

/-- C5: a successful `Merge` additively combines, from every source into
the target: `fEntries`, all 9 global moment sums, the 9 overflow
accumulators pairwise by overflow index, and every interior bin
positionally (target bin `i` merged with each source's bin `i`, left to
right); afterwards every interior bin is updated and its display content
set to its freshly recomputed average. -/
theorem C5_merge_success_combines (sq : ℚ → ℚ) (t h : TProfile2Poly)
    (rest : List TProfile2Poly)
    (hall : ∀ s ∈ h :: rest, s.fBins.length = t.fBins.length)
    (hov : t.fOverflowBins.length = 9)
    (hovs : ∀ s ∈ h :: rest, s.fOverflowBins.length = 9) :
    (t.MergeList sq (h :: rest)).1 = 1 ∧
    (t.MergeList sq (h :: rest)).2.fEntries
      = t.fEntries + ((h :: rest).map TProfile2Poly.fEntries).sum ∧
    (t.MergeList sq (h :: rest)).2.fTsumw
      = t.fTsumw + ((h :: rest).map TProfile2Poly.fTsumw).sum ∧
    (t.MergeList sq (h :: rest)).2.fTsumw2
      = t.fTsumw2 + ((h :: rest).map TProfile2Poly.fTsumw2).sum ∧
    (t.MergeList sq (h :: rest)).2.fTsumwx
      = t.fTsumwx + ((h :: rest).map TProfile2Poly.fTsumwx).sum ∧
    (t.MergeList sq (h :: rest)).2.fTsumwx2
      = t.fTsumwx2 + ((h :: rest).map TProfile2Poly.fTsumwx2).sum ∧
    (t.MergeList sq (h :: rest)).2.fTsumwy
      = t.fTsumwy + ((h :: rest).map TProfile2Poly.fTsumwy).sum ∧
    (t.MergeList sq (h :: rest)).2.fTsumwy2
      = t.fTsumwy2 + ((h :: rest).map TProfile2Poly.fTsumwy2).sum ∧
    (t.MergeList sq (h :: rest)).2.fTsumwxy
      = t.fTsumwxy + ((h :: rest).map TProfile2Poly.fTsumwxy).sum ∧
    (t.MergeList sq (h :: rest)).2.fTsumwz
      = t.fTsumwz + ((h :: rest).map TProfile2Poly.fTsumwz).sum ∧
    (t.MergeList sq (h :: rest)).2.fTsumwz2
      = t.fTsumwz2 + ((h :: rest).map TProfile2Poly.fTsumwz2).sum ∧
    (∀ j : ℕ, j < 9 →
      (t.MergeList sq (h :: rest)).2.fOverflowBins.getD j default
        = (h :: rest).foldl
            (fun (bb : TProfile2PolyBin) (e : TProfile2Poly) =>
              bb.Merge (e.fOverflowBins.getD j default))
            (t.fOverflowBins.getD j default)) ∧
    (∀ i : ℕ, i < t.fBins.length →
      (t.MergeList sq (h :: rest)).2.fBins.getD i default
        = TProfile2Poly.updateAndSetAverage sq
            ((h :: rest).foldl
              (fun (bb : TProfile2PolyBin) (e : TProfile2Poly) =>
                bb.Merge (e.fBins.getD i default))
              (t.fBins.getD i default)) ∧
      ((t.MergeList sq (h :: rest)).2.fBins.getD i default).fContent
        = ((t.MergeList sq (h :: rest)).2.fBins.getD i default).fAverage) := by
  have hguard : ∀ s ∈ h :: rest, s.fBins.length = h.fBins.length := fun s hs =>
    (hall s hs).trans (hall h (by simp)).symm
  have hlen_t : t.fBins.length = h.fBins.length := (hall h (by simp)).symm
  refine ⟨?_, ?_, ?_, ?_, ?_, ?_, ?_, ?_, ?_, ?_, ?_, fun j hj => ?_, fun i hi => ?_⟩
  · rw [mergeList_success sq t h rest hguard]
  · rw [mergeList_success sq t h rest hguard]
    show ((h :: rest).foldl TProfile2Poly.mergeGlobals t).fEntries = _
    rw [foldl_mergeGlobals_eq]
  · rw [mergeList_success sq t h rest hguard]
    show ((h :: rest).foldl TProfile2Poly.mergeGlobals t).fTsumw = _
    rw [foldl_mergeGlobals_eq]
  · rw [mergeList_success sq t h rest hguard]
    show ((h :: rest).foldl TProfile2Poly.mergeGlobals t).fTsumw2 = _
    rw [foldl_mergeGlobals_eq]
  · rw [mergeList_success sq t h rest hguard]
    show ((h :: rest).foldl TProfile2Poly.mergeGlobals t).fTsumwx = _
    rw [foldl_mergeGlobals_eq]
  · rw [mergeList_success sq t h rest hguard]
    show ((h :: rest).foldl TProfile2Poly.mergeGlobals t).fTsumwx2 = _
    rw [foldl_mergeGlobals_eq]
  · rw [mergeList_success sq t h rest hguard]
    show ((h :: rest).foldl TProfile2Poly.mergeGlobals t).fTsumwy = _
    rw [foldl_mergeGlobals_eq]
  · rw [mergeList_success sq t h rest hguard]
    show ((h :: rest).foldl TProfile2Poly.mergeGlobals t).fTsumwy2 = _
    rw [foldl_mergeGlobals_eq]
  · rw [mergeList_success sq t h rest hguard]
    show ((h :: rest).foldl TProfile2Poly.mergeGlobals t).fTsumwxy = _
    rw [foldl_mergeGlobals_eq]
  · rw [mergeList_success sq t h rest hguard]
    show ((h :: rest).foldl TProfile2Poly.mergeGlobals t).fTsumwz = _
    rw [foldl_mergeGlobals_eq]
  · rw [mergeList_success sq t h rest hguard]
    show ((h :: rest).foldl TProfile2Poly.mergeGlobals t).fTsumwz2 = _
    rw [foldl_mergeGlobals_eq]
  · rw [mergeList_success sq t h rest hguard]
    show (((h :: rest).foldl TProfile2Poly.mergeGlobals t).fOverflowBins).getD j default = _
    rw [foldl_mergeGlobals_eq]
    exact foldl_overflow_getD (h :: rest) t.fOverflowBins hov hovs j hj
  · refine ⟨mergeList_success_bins_getD sq t h rest hguard hlen_t i hi, ?_⟩
    rw [mergeList_success_bins_getD sq t h rest hguard hlen_t i hi,
      updateAndSetAverage_content]

/-- Witness for C5: merging one copy of the demonstration aggregator into
another succeeds with return value 1. -/
theorem C5_merge_success_combines_witness :
    (demoAgg.MergeList id [demoAgg]).1 = 1 :=
  (C5_merge_success_combines id demoAgg demoAgg []
      (by intro s hs; simp only [List.mem_singleton] at hs; rw [hs])
      rfl
      (by intro s hs; simp only [List.mem_singleton] at hs; rw [hs]; rfl)).1

end TProfile2PolyModel
